import Mathlib

/-!
Verification of the parallel state-execution core (shared cache state,
executor-factory selection, CLI utilities) against its specification.

The Rust sources embedded here:
- crates/revm/revm-parallel/src/shared/cache.rs (`SharedCacheState`)
- bin/reth/src/args/execution_args.rs (`ExecutionArgs`, `EitherExecutorFactory`)
- bin/reth/src/utils.rs (`get_single_header`, `ListFilter`)

The per-account entry type `SharedCacheAccount` is declared in a module that
is not part of the excerpt; its operations (`new_loaded`, `new_loaded_empty_eip161`,
`new_loaded_not_existing`, `account_info`, `apply_account_revision`,
`finalize_transition`) and the bytecode-table operation `get_or_insert_code`
are modelled from the specification and marked as such below.
-/

/-- Account address (fixed-size address modelled as a natural number). -/
abbrev Address := Nat

/-- 256-bit hash value, modelled as a natural number. -/
abbrev B256 := Nat

/-- Immutable contract bytecode, modelled as its byte sequence. -/
abbrev Bytecode := List Nat

/-- Plain storage map (slot, value) pairs; `HashMap::default()` is `[]`. -/
abbrev PlainStorage := List (Nat × Nat)

/-- Account info: balance, nonce and code (revm `AccountInfo`; the code hash
is determined by the code, so we carry the code itself). -/
structure AccountInfo where
  balance : Nat
  nonce : Nat
  code : List Nat
deriving DecidableEq

/-- The canonical empty account info: zero balance, zero nonce, empty code. -/
def empty_info : AccountInfo := ⟨0, 0, []⟩

/-- revm `AccountInfo::is_empty`: zero balance, zero nonce and empty code. -/
def AccountInfo.is_empty (i : AccountInfo) : Bool :=
  i.balance == 0 && i.nonce == 0 && i.code == []

/-- One account's post-state as produced by the VM for one execution unit
(revm `Account`): resulting info, resulting storage, and whether the account
was self-destructed during the unit. -/
structure Account where
  info : AccountInfo
  storage : PlainStorage
  self_destructed : Bool
deriving DecidableEq

/-- The output of one execution unit: the touched addresses with their
post-states (revm `State`, a map address to account). -/
abbrev EVMState := List (Address × Account)

/-- Status of a cached account entry: known not to exist, loaded with info
and storage, or loaded as the canonical empty (EIP-161 prunable) account. -/
inductive AccountStatus where
  | notExisting : AccountStatus
  | loaded (info : AccountInfo) (storage : PlainStorage) : AccountStatus
  | loadedEmptyAndPrunable (storage : PlainStorage) : AccountStatus
deriving DecidableEq

/-- Account info carried by a status; `NotExisting` has none and the
loaded-empty variant carries the canonical empty info. -/
def AccountStatus.account_info : AccountStatus → Option AccountInfo
  | .notExisting => none
  | .loaded i _ => some i
  | .loadedEmptyAndPrunable _ => some empty_info

/-- Modelled from the spec: `SharedCacheAccount` (declared outside the
excerpt) holds one account's current status, the original pre-window
snapshot, and buffers the revision-tagged deltas received so far so that
they can be placed in revision order when the entry is finalized. -/
structure SharedCacheAccount where
  status : AccountStatus
  original : AccountStatus
  revisions : List (Nat × Account)
deriving DecidableEq

/-- Modelled from the spec: a fresh entry for an address known not to exist. -/
def SharedCacheAccount.new_loaded_not_existing : SharedCacheAccount :=
  ⟨.notExisting, .notExisting, []⟩

/-- Modelled from the spec: a fresh entry for a loaded, non-empty account. -/
def SharedCacheAccount.new_loaded (info : AccountInfo) (storage : PlainStorage) :
    SharedCacheAccount :=
  ⟨.loaded info storage, .loaded info storage, []⟩

/-- Modelled from the spec: a fresh entry for an account loaded with the
canonical empty info (EIP-161 prunable). -/
def SharedCacheAccount.new_loaded_empty_eip161 (storage : PlainStorage) :
    SharedCacheAccount :=
  ⟨.loadedEmptyAndPrunable storage, .loadedEmptyAndPrunable storage, []⟩

/-- Modelled from the spec: the entry's current account info. -/
def SharedCacheAccount.account_info (e : SharedCacheAccount) : Option AccountInfo :=
  e.status.account_info

/-- Modelled from the spec: applying one revision-tagged delta buffers it in
the entry's per-address history; folding is deferred to finalization, where
the buffered deltas are placed in increasing revision order. -/
def SharedCacheAccount.apply_account_revision (e : SharedCacheAccount)
    (_previous_info : Option AccountInfo) (account : Account) (revision : Nat) :
    SharedCacheAccount :=
  { e with revisions := e.revisions ++ [(revision, account)] }

/-- Ordering of buffered deltas by their revision key. -/
def revLE (p q : Nat × Account) : Prop := p.1 ≤ q.1

instance : DecidableRel revLE := fun p q => inferInstanceAs (Decidable (p.1 ≤ q.1))

instance : IsTotal (Nat × Account) revLE := ⟨fun p q => Nat.le_total p.1 q.1⟩

instance : IsTrans (Nat × Account) revLE := ⟨fun _ _ _ h h' => Nat.le_trans h h'⟩

/-- Modelled from the spec: the effect of one revision's delta on the
account's status — a self-destruct removes the account, otherwise the
revision's post-state becomes the current state. -/
def step_status (_st : AccountStatus) (acc : Account) : AccountStatus :=
  if acc.self_destructed then .notExisting else .loaded acc.info acc.storage

/-- The net before/after diff for one account over a processed window;
`after = none` marks the account deleted / absent after the window. -/
structure Transition where
  before : Option AccountInfo
  after : Option AccountInfo
deriving DecidableEq

/-- Modelled from the spec: `finalize_transition` folds the buffered history
in increasing revision order into the net transition since the window began,
honoring the state-clear policy: an account that ends empty is represented
as deleted rather than as a present zero-valued account. -/
def SharedCacheAccount.finalize_transition (e : SharedCacheAccount)
    (has_state_clear : Bool) : Option Transition :=
  let ordered := List.insertionSort revLE e.revisions
  let final := ordered.foldl (fun st ra => step_status st ra.2) e.status
  let before := e.original.account_info
  let afterInfo := final.account_info
  let after : Option AccountInfo :=
    match afterInfo with
    | some i => if has_state_clear && i.is_empty then none else some i
    | none => none
  if before = none ∧ after = none then none else some ⟨before, after⟩

/-- Insertion into the account map (`HashMap::insert`). -/
def mapInsert (m : Address → Option SharedCacheAccount) (a : Address)
    (e : SharedCacheAccount) : Address → Option SharedCacheAccount :=
  fun x => if x = a then some e else m x

/-- `SharedCacheState`: the account table, the content-addressed bytecode
table, and the EIP-161 state-clear flag. The account table is a map from
address to entry (the `Mutex` guards concurrency only and carries no
sequential meaning); the bytecode table is an association list. -/
structure SharedCacheState where
  accounts : Address → Option SharedCacheAccount
  contracts : List (B256 × Bytecode)
  has_state_clear : Bool

/-- `SharedCacheState::new`. -/
def SharedCacheState.new (has_state_clear : Bool) : SharedCacheState :=
  ⟨fun _ => none, [], has_state_clear⟩

/-- `SharedCacheState::set_state_clear_flag`. -/
def SharedCacheState.set_state_clear_flag (c : SharedCacheState)
    (has_state_clear : Bool) : SharedCacheState :=
  { c with has_state_clear := has_state_clear }

/-- `SharedCacheState::insert_not_existing`. -/
def SharedCacheState.insert_not_existing (c : SharedCacheState) (address : Address) :
    SharedCacheState :=
  { c with accounts :=
      mapInsert c.accounts address SharedCacheAccount.new_loaded_not_existing }

/-- `SharedCacheState::insert_account`: insert Loaded (or LoadedEmptyEIP161
if the account is empty) account. -/
def SharedCacheState.insert_account (c : SharedCacheState) (address : Address)
    (info : AccountInfo) : SharedCacheState :=
  let account := if !info.is_empty then
      SharedCacheAccount.new_loaded info []
    else
      SharedCacheAccount.new_loaded_empty_eip161 []
  { c with accounts := mapInsert c.accounts address account }

/-- `SharedCacheState::insert_account_with_storage`. -/
def SharedCacheState.insert_account_with_storage (c : SharedCacheState)
    (address : Address) (info : AccountInfo) (storage : PlainStorage) :
    SharedCacheState :=
  let account := if !info.is_empty then
      SharedCacheAccount.new_loaded info storage
    else
      SharedCacheAccount.new_loaded_empty_eip161 storage
  { c with accounts := mapInsert c.accounts address account }

/-- The addresses touched by a batch of EVM states. -/
def touched (evm_states : List (Nat × EVMState)) : List Address :=
  evm_states.flatMap (fun rs => rs.2.map Prod.fst)

/-- Grouping step of `apply_evm_states`: the revision-tagged deltas of one
address, in the order they occur in the input batch. -/
def group (evm_states : List (Nat × EVMState)) (a : Address) :
    List (Nat × Account) :=
  evm_states.flatMap (fun rs =>
    rs.2.filterMap (fun p => if p.1 = a then some (rs.1, p.2) else none))

/-- `SharedCacheState::apply_evm_states`: group the batch by address and
apply each address's deltas to its existing entry; the `expect("account
must be present")` panic on a missing entry is modelled as `none`. -/
def SharedCacheState.apply_evm_states (c : SharedCacheState)
    (evm_states : List (Nat × EVMState)) : Option SharedCacheState :=
  if (touched evm_states).all (fun a => (c.accounts a).isSome) then
    some { c with accounts := fun a =>
      match c.accounts a with
      | none => none
      | some e => some ((group evm_states a).foldl
          (fun acc ra => acc.apply_account_revision e.account_info ra.2 ra.1) e) }
  else none

/-- `SharedCacheState::take_transitions`: the transition of every cached
account that finalizes to one (the per-address history reset performed by
the Rust method is irrelevant to the produced transitions and omitted). -/
def SharedCacheState.take_transitions (c : SharedCacheState) :
    Address → Option Transition :=
  fun a => (c.accounts a).bind (fun e => e.finalize_transition c.has_state_clear)

/-- Lookup in the bytecode table by code hash (`DashMap` read). -/
def lookup_code : List (B256 × Bytecode) → B256 → Option Bytecode
  | [], _ => none
  | p :: t, h => if p.1 = h then some p.2 else lookup_code t h

/-- Modelled from the spec: `get_or_insert_code(hash, bytes)` over the
`contracts` table — return the entry for `hash` if present, otherwise
insert `(hash, bytes)`; duplicate inserts for the same hash carry identical
bytes by content addressing. -/
def get_or_insert_code (m : List (B256 × Bytecode)) (hash : B256)
    (bytes : Bytecode) : List (B256 × Bytecode) :=
  match lookup_code m hash with
  | some _ => m
  | none => m ++ [(hash, bytes)]

/-- `n` repeated insertions of the same (hash, bytes) pair. -/
def insert_code_times : Nat → List (B256 × Bytecode) → B256 → Bytecode →
    List (B256 × Bytecode)
  | 0, m, _, _ => m
  | n + 1, m, hash, bytes =>
      insert_code_times n (get_or_insert_code m hash bytes) hash bytes

example : lookup_code (get_or_insert_code [] 1 [2, 3]) 1 = some [2, 3] := by decide

/-- Chain configuration, opaque to the factory-selection logic. -/
abbrev ChainSpec := Nat

/-- Deserialized block queues for parallel execution. -/
abbrev BlockQueues := List (List Nat)

/-- `BlockQueueStore::new(queues)`. -/
structure BlockQueueStore where
  queues : BlockQueues
deriving DecidableEq

/-- `EVMProcessorFactory::new(chain_spec)` — the sequential strategy. -/
structure EVMProcessorFactory where
  chain_spec : ChainSpec
deriving DecidableEq

/-- `ParallelExecutorFactory::new(chain_spec, queue_store)`. -/
structure ParallelExecutorFactory where
  chain_spec : ChainSpec
  queue_store : BlockQueueStore
deriving DecidableEq

/-- `EitherExecutorFactory`: one of two possible executor factories. -/
inductive EitherExecutorFactory (A B : Type) where
  | left (a : A) : EitherExecutorFactory A B
  | right (b : B) : EitherExecutorFactory A B
deriving DecidableEq

/-- `ExecutionArgs`: parallel selection flag and queue-store path. -/
structure ExecutionArgs where
  parallel : Bool
  queue_store : Option String
deriving DecidableEq

/-- `ExecutionArgs::pipeline_executor_factory`. Filesystem reading and JSON
deserialization are passed in as functions (`read_to_string`,
`deserialize`); the `expect("is set")` panic on an unset path is modelled
as a fatal error, like the wrapped read/deserialize failures. -/
def ExecutionArgs.pipeline_executor_factory (args : ExecutionArgs)
    (chain_spec : ChainSpec)
    (read_to_string : String → Except String String)
    (deserialize : String → Except String BlockQueues) :
    Except String (EitherExecutorFactory EVMProcessorFactory ParallelExecutorFactory) :=
  if args.parallel then
    match args.queue_store with
    | none => Except.error "is set"
    | some path =>
      match read_to_string path with
      | .error e => .error ("failed to read parallel queue store: " ++ e)
      | .ok queue_store_content =>
        match deserialize queue_store_content with
        | .error e => .error ("failed to deserialize queue store: " ++ e)
        | .ok queues =>
            .ok (.right ⟨chain_spec, ⟨queues⟩⟩)
  else
    .ok (.left ⟨chain_spec⟩)

/-- Block header; `extra` stands for the remaining header payload. -/
structure Header where
  number : Nat
  extra : Nat
deriving DecidableEq

/-- A header together with its hash (`SealedHeader`). -/
structure SealedHeader where
  header : Header
  hash : Nat
deriving DecidableEq

/-- Requested block identifier (`BlockHashOrNumber`). -/
inductive BlockHashOrNumber where
  | hash (h : Nat) : BlockHashOrNumber
  | number (n : Nat) : BlockHashOrNumber
deriving DecidableEq

/-- `Header::seal_slow` with the hash function passed explicitly. -/
def Header.seal_slow (hashFn : Header → Nat) (h : Header) : SealedHeader :=
  ⟨h, hashFn h⟩

/-- The validity check of `get_single_header`: under a hash request the
sealed hash must equal the requested hash, under a number request the
header number must equal the requested number. -/
def matches_id (id : BlockHashOrNumber) (h : SealedHeader) : Bool :=
  match id with
  | .hash hs => h.hash == hs
  | .number n => h.header.number == n

/-- `get_single_header`: the peer response is passed as the list of
received headers; a response of length other than one is an error, and a
single received header is sealed and checked against the request. -/
def get_single_header (hashFn : Header → Nat) (id : BlockHashOrNumber)
    (response : List Header) : Except String SealedHeader :=
  if response.length ≠ 1 then
    .error "Invalid number of headers received. Expected: 1."
  else
    match response with
    | [hdr] =>
      let header := Header.seal_slow hashFn hdr
      if matches_id id header then .ok header
      else .error "Received invalid header."
    | _ => .error "Invalid number of headers received. Expected: 1."

/-- `ListFilter`, generic over the table's key type. -/
structure ListFilter (K : Type) where
  skip : Nat
  len : Nat
  search : Option (List Nat)
  reverse : Bool
  only_count : Bool
  seek_key : Option K

/-- `ListFilter::has_search`. -/
def ListFilter.has_search {K : Type} (f : ListFilter K) : Bool :=
  match f.search with
  | none => false
  | some s => !s.isEmpty

/-- `ListFilter::has_seek` — as written in the source, it returns
`seek_key.is_none()`. -/
def ListFilter.has_seek {K : Type} (f : ListFilter K) : Bool :=
  f.seek_key.isNone

/-- `ListFilter::update_page`. -/
def ListFilter.update_page {K : Type} (f : ListFilter K) (skip len : Nat) :
    ListFilter K :=
  { f with skip := skip, len := len }

/-! Helper lemmas. -/

lemma mapInsert_idem (m : Address → Option SharedCacheAccount) (a : Address)
    (e : SharedCacheAccount) : mapInsert (mapInsert m a e) a e = mapInsert m a e := by
  funext x
  by_cases hx : x = a <;> simp [mapInsert, hx]

lemma mapInsert_self (m : Address → Option SharedCacheAccount) (a : Address)
    (e : SharedCacheAccount) : mapInsert m a e a = some e := by
  simp [mapInsert]

lemma perm_all_eq {α : Type} {l₁ l₂ : List α} (hp : l₁.Perm l₂) (p : α → Bool) :
    l₁.all p = l₂.all p := by
  cases hb : l₂.all p
  · rw [List.all_eq_false] at hb ⊢
    obtain ⟨x, hx, hpx⟩ := hb
    exact ⟨x, hp.mem_iff.mpr hx, hpx⟩
  · rw [List.all_eq_true] at hb ⊢
    intro x hx
    exact hb x (hp.mem_iff.mp hx)

lemma touched_perm {l₁ l₂ : List (Nat × EVMState)} (hp : l₁.Perm l₂) :
    (touched l₁).Perm (touched l₂) :=
  hp.flatMap_right _

lemma group_perm {l₁ l₂ : List (Nat × EVMState)} (hp : l₁.Perm l₂) (a : Address) :
    (group l₁ a).Perm (group l₂ a) :=
  hp.flatMap_right _

lemma group_eq_nil_of_not_touched {l : List (Nat × EVMState)} {a : Address}
    (h : a ∉ touched l) : group l a = [] := by
  rw [List.eq_nil_iff_forall_not_mem]
  intro x hx
  apply h
  unfold group at hx
  unfold touched
  rw [List.mem_flatMap] at hx ⊢
  obtain ⟨rs, hrs, hx2⟩ := hx
  rw [List.mem_filterMap] at hx2
  obtain ⟨p, hp2, hif⟩ := hx2
  refine ⟨rs, hrs, ?_⟩
  rw [List.mem_map]
  refine ⟨p, hp2, ?_⟩
  by_cases hpa : p.1 = a
  · exact hpa
  · simp [hpa] at hif

lemma foldl_apply_account_revision (e : SharedCacheAccount) (i : Option AccountInfo)
    (g : List (Nat × Account)) :
    g.foldl (fun acc ra => acc.apply_account_revision i ra.2 ra.1) e =
      { e with revisions := e.revisions ++ g } := by
  induction g generalizing e with
  | nil => simp
  | cons p t ih =>
    rw [List.foldl_cons, ih]
    simp [SharedCacheAccount.apply_account_revision, List.append_assoc]

lemma sorted_key_nodup_perm_eq {l₁ : List (Nat × Account)} :
    ∀ {l₂ : List (Nat × Account)}, l₁.Perm l₂ → List.Sorted revLE l₁ →
      List.Sorted revLE l₂ → (l₁.map Prod.fst).Nodup → l₁ = l₂ := by
  induction l₁ with
  | nil =>
    intro l₂ hp _ _ _
    exact hp.nil_eq
  | cons p t ih =>
    intro l₂ hp hs₁ hs₂ hn
    cases l₂ with
    | nil => exact absurd hp.eq_nil (by simp)
    | cons q t₂ =>
      have hpq : p = q := by
        by_cases hpq : p = q
        · exact hpq
        · have hpmem : p ∈ q :: t₂ := hp.mem_iff.mp (List.mem_cons_self p t)
          have hqmem : q ∈ p :: t := hp.mem_iff.mpr (List.mem_cons_self q t₂)
          have hpt₂ : p ∈ t₂ := by
            rcases List.mem_cons.mp hpmem with h | h
            · exact absurd h hpq
            · exact h
          have hqt : q ∈ t := by
            rcases List.mem_cons.mp hqmem with h | h
            · exact absurd h.symm hpq
            · exact h
          have h1 : revLE p q := List.rel_of_sorted_cons hs₁ q hqt
          have h2 : revLE q p := List.rel_of_sorted_cons hs₂ p hpt₂
          have hkey : p.1 = q.1 := Nat.le_antisymm h1 h2
          have hmem : p.1 ∈ t.map Prod.fst := by
            rw [List.mem_map]
            exact ⟨q, hqt, hkey.symm⟩
          rw [List.map_cons] at hn
          exact absurd hmem (List.nodup_cons.mp hn).1
      subst hpq
      have htp : t.Perm t₂ := hp.cons_inv
      have hnt : (t.map Prod.fst).Nodup := by
        rw [List.map_cons] at hn
        exact (List.nodup_cons.mp hn).2
      rw [ih htp hs₁.of_cons hs₂.of_cons hnt]

lemma insertionSort_revLE_eq {l₁ l₂ : List (Nat × Account)} (hp : l₁.Perm l₂)
    (hn : (l₁.map Prod.fst).Nodup) :
    List.insertionSort revLE l₁ = List.insertionSort revLE l₂ := by
  apply sorted_key_nodup_perm_eq
  · exact (List.perm_insertionSort revLE l₁).trans
      (hp.trans (List.perm_insertionSort revLE l₂).symm)
  · exact List.sorted_insertionSort revLE l₁
  · exact List.sorted_insertionSort revLE l₂
  · exact (((List.perm_insertionSort revLE l₁).map Prod.fst).nodup_iff).mpr hn

lemma finalize_transition_congr {e₁ e₂ : SharedCacheAccount}
    (hs : e₁.status = e₂.status) (ho : e₁.original = e₂.original)
    (hr : List.insertionSort revLE e₁.revisions =
      List.insertionSort revLE e₂.revisions) (b : Bool) :
    e₁.finalize_transition b = e₂.finalize_transition b := by
  unfold SharedCacheAccount.finalize_transition
  rw [hs, ho, hr]


/-! Claim theorems. -/

/-- C1: deltas submitted in one `apply_evm_states` call are, per address,
merged in increasing revision order regardless of input order: applying any
permutation of the batch and then finalizing via `take_transitions` yields
the same transitions as applying it in strict revision order. -/
theorem apply_evm_states_order_independent (c : SharedCacheState)
    (l₁ l₂ : List (Nat × EVMState)) (hp : l₁.Perm l₂)
    (hfresh : ∀ a e, c.accounts a = some e → e.revisions = [])
    (hn : ∀ a ∈ touched l₁, ((group l₁ a).map Prod.fst).Nodup) :
    (c.apply_evm_states l₁).map SharedCacheState.take_transitions =
      (c.apply_evm_states l₂).map SharedCacheState.take_transitions := by
  unfold SharedCacheState.apply_evm_states
  rw [perm_all_eq (touched_perm hp)]
  by_cases hall : (touched l₂).all (fun a => (c.accounts a).isSome) = true
  · rw [if_pos hall, if_pos hall]
    simp only [Option.map_some']
    congr 1
    unfold SharedCacheState.take_transitions
    funext a
    cases hca : c.accounts a with
    | none => simp [hca]
    | some e =>
      simp only [hca, foldl_apply_account_revision, Option.some_bind]
      have hsort : List.insertionSort revLE (e.revisions ++ group l₁ a) =
          List.insertionSort revLE (e.revisions ++ group l₂ a) := by
        rw [hfresh a e hca]
        simp only [List.nil_append]
        by_cases ht : a ∈ touched l₁
        · exact insertionSort_revLE_eq (group_perm hp a) (hn a ht)
        · rw [group_eq_nil_of_not_touched ht,
            group_eq_nil_of_not_touched (fun h => ht ((touched_perm hp).mem_iff.mpr h))]
      refine finalize_transition_congr ?_ ?_ ?_ c.has_state_clear
      · rfl
      · rfl
      · exact hsort
  · rw [if_neg hall, if_neg hall]

/-- A concrete cache with one loaded, non-empty account at address 0. -/
def cacheC1 : SharedCacheState :=
  SharedCacheState.mk
    (fun x => if x = 0 then some (SharedCacheAccount.new_loaded ⟨5, 1, []⟩ []) else none)
    [] true

/-- Witness for C1: two arrival orders of the same two revisions for
address 0 finalize to the same transitions. -/
theorem apply_evm_states_order_independent_witness :
    (cacheC1.apply_evm_states
        [(0, [(0, ⟨⟨10, 1, []⟩, [], false⟩)]), (1, [(0, ⟨⟨20, 2, []⟩, [], false⟩)])]).map
      SharedCacheState.take_transitions =
    (cacheC1.apply_evm_states
        [(1, [(0, ⟨⟨20, 2, []⟩, [], false⟩)]), (0, [(0, ⟨⟨10, 1, []⟩, [], false⟩)])]).map
      SharedCacheState.take_transitions := by
  refine apply_evm_states_order_independent cacheC1 _ _ (by decide) ?_ (by decide)
  intro a e h
  by_cases ha : a = 0 <;> simp [cacheC1, ha] at h
  rw [← h]
  rfl

/-- C2: a delta for an address with no existing cache entry makes
`apply_evm_states` fail fatally, and a successful call never creates (or
removes) an entry: the set of cached addresses is unchanged. -/
theorem apply_evm_states_missing_account (c : SharedCacheState)
    (l : List (Nat × EVMState)) :
    (∀ a, a ∈ touched l → c.accounts a = none → c.apply_evm_states l = none) ∧
    (∀ c', c.apply_evm_states l = some c' →
      ∀ x, (c'.accounts x).isSome = (c.accounts x).isSome) := by
  constructor
  · intro a ha hnone
    unfold SharedCacheState.apply_evm_states
    rw [if_neg]
    intro hall
    rw [List.all_eq_true] at hall
    have hne := hall a ha
    rw [hnone] at hne
    simp at hne
  · intro c' h x
    unfold SharedCacheState.apply_evm_states at h
    split at h
    · injection h with h2
      subst h2
      cases hcx : c.accounts x <;> simp [hcx]
    · cases h

/-- Witness for C2: a delta for unloaded address 0 on an empty cache fails. -/
theorem apply_evm_states_missing_account_witness :
    (SharedCacheState.new true).apply_evm_states
      [(0, [(0, ⟨⟨1, 0, []⟩, [], false⟩)])] = none :=
  (apply_evm_states_missing_account (SharedCacheState.new true) _).1 0 (by decide) rfl

lemma is_empty_eq_empty_info {i : AccountInfo} (hi : i.is_empty = true) :
    i = empty_info := by
  cases i with
  | mk b n cd =>
    simp [AccountInfo.is_empty] at hi
    simp [empty_info, hi]

/-- C3: an account loaded with the canonical empty info and never touched
finalizes as a transition marking it deleted (`after = none`) when state
clearing is active, and as a present empty account when inactive. -/
theorem take_transitions_loaded_empty_untouched (c : SharedCacheState)
    (a : Address) (i : AccountInfo) (hi : i.is_empty = true) :
    (c.has_state_clear = true →
      (c.insert_account a i).take_transitions a =
        some ⟨some empty_info, none⟩) ∧
    (c.has_state_clear = false →
      (c.insert_account a i).take_transitions a =
        some ⟨some empty_info, some empty_info⟩) := by
  have hie : i = empty_info := is_empty_eq_empty_info hi
  subst hie
  constructor <;> intro hflag <;>
    simp [SharedCacheState.take_transitions, SharedCacheState.insert_account,
      mapInsert, hflag, SharedCacheAccount.finalize_transition,
      SharedCacheAccount.new_loaded_empty_eip161, AccountStatus.account_info,
      empty_info, AccountInfo.is_empty, List.insertionSort]

/-- Witness for C3 at concrete caches with the flag set and cleared. -/
theorem take_transitions_loaded_empty_untouched_witness :
    ((SharedCacheState.new true).insert_account 0 empty_info).take_transitions 0 =
      some ⟨some empty_info, none⟩ ∧
    ((SharedCacheState.new false).insert_account 0 empty_info).take_transitions 0 =
      some ⟨some empty_info, some empty_info⟩ :=
  ⟨(take_transitions_loaded_empty_untouched (SharedCacheState.new true) 0 empty_info
      (by decide)).1 rfl,
   (take_transitions_loaded_empty_untouched (SharedCacheState.new false) 0 empty_info
      (by decide)).2 rfl⟩

/-- C4: when parallel execution is selected, an unreadable or undeserializable
queue store (or an unset path) yields an error before any factory is built;
when it is not selected, the sequential factory is returned whatever the
queue-store reading functions do. -/
theorem pipeline_executor_factory_spec (args : ExecutionArgs) (cs : ChainSpec)
    (r : String → Except String String) (d : String → Except String BlockQueues) :
    (args.parallel = true → ∀ path e, args.queue_store = some path →
      r path = .error e →
      ∃ msg, args.pipeline_executor_factory cs r d = .error msg) ∧
    (args.parallel = true → ∀ path content e, args.queue_store = some path →
      r path = .ok content → d content = .error e →
      ∃ msg, args.pipeline_executor_factory cs r d = .error msg) ∧
    (args.parallel = true → args.queue_store = none →
      ∃ msg, args.pipeline_executor_factory cs r d = .error msg) ∧
    (args.parallel = false →
      args.pipeline_executor_factory cs r d = .ok (.left ⟨cs⟩)) := by
  refine ⟨?_, ?_, ?_, ?_⟩
  · intro hpar path e hq hr
    simp [ExecutionArgs.pipeline_executor_factory, hpar, hq, hr]
  · intro hpar path content e hq hr hd
    simp [ExecutionArgs.pipeline_executor_factory, hpar, hq, hr, hd]
  · intro hpar hq
    simp [ExecutionArgs.pipeline_executor_factory, hpar, hq]
  · intro hpar
    simp [ExecutionArgs.pipeline_executor_factory, hpar]

/-- Witness for C4: failing read, failing deserialization, and the
sequential branch, at concrete arguments. -/
theorem pipeline_executor_factory_spec_witness :
    ((ExecutionArgs.mk true (some "q")).pipeline_executor_factory 7
      (fun _ => .error "nope") (fun _ => .ok [])).isOk = false ∧
    ((ExecutionArgs.mk true (some "q")).pipeline_executor_factory 7
      (fun _ => .ok "content") (fun _ => .error "bad")).isOk = false ∧
    (ExecutionArgs.mk false none).pipeline_executor_factory 7
      (fun _ => .error "nope") (fun _ => .error "bad") = .ok (.left ⟨7⟩) := by
  refine ⟨?_, ?_, ?_⟩
  · obtain ⟨msg, hm⟩ := (pipeline_executor_factory_spec (ExecutionArgs.mk true (some "q")) 7
      (fun _ => .error "nope") (fun _ => .ok [])).1 rfl "q" "nope" rfl rfl
    rw [hm]
    rfl
  · obtain ⟨msg, hm⟩ := (pipeline_executor_factory_spec (ExecutionArgs.mk true (some "q")) 7
      (fun _ => .ok "content") (fun _ => .error "bad")).2.1 rfl "q" "content" "bad" rfl rfl rfl
    rw [hm]
    rfl
  · exact (pipeline_executor_factory_spec (ExecutionArgs.mk false none) 7
      (fun _ => .error "nope") (fun _ => .error "bad")).2.2.2 rfl

/-- C5: `insert_account` and `insert_account_with_storage` create the
loaded-empty (EIP-161 prunable) entry exactly when the info is the
canonical empty account, and the plain loaded entry otherwise; the choice
depends only on `is_empty`. -/
theorem insert_account_variant (c : SharedCacheState) (a : Address)
    (i : AccountInfo) (s : PlainStorage) :
    (c.insert_account a i).accounts a =
      some (if i.is_empty then SharedCacheAccount.new_loaded_empty_eip161 []
        else SharedCacheAccount.new_loaded i []) ∧
    (c.insert_account_with_storage a i s).accounts a =
      some (if i.is_empty then SharedCacheAccount.new_loaded_empty_eip161 s
        else SharedCacheAccount.new_loaded i s) := by
  constructor <;>
    cases hi : i.is_empty <;>
      simp [SharedCacheState.insert_account,
        SharedCacheState.insert_account_with_storage, mapInsert, hi]

/-- C7: `insert_not_existing` is idempotent and maps the address to the
not-existing entry. -/
theorem insert_not_existing_idempotent (c : SharedCacheState) (a : Address) :
    (c.insert_not_existing a).insert_not_existing a = c.insert_not_existing a ∧
    (c.insert_not_existing a).accounts a =
      some SharedCacheAccount.new_loaded_not_existing := by
  constructor
  · unfold SharedCacheState.insert_not_existing
    dsimp only
    rw [mapInsert_idem]
  · unfold SharedCacheState.insert_not_existing
    dsimp only
    exact mapInsert_self c.accounts a _

/-- C8: `insert_account` leaves the cache in exactly the state of
`insert_account_with_storage` with empty storage. -/
theorem insert_account_eq_with_storage_nil (c : SharedCacheState) (a : Address)
    (i : AccountInfo) :
    c.insert_account a i = c.insert_account_with_storage a i [] := rfl

lemma lookup_code_append_of_none {m : List (B256 × Bytecode)} {h : B256}
    (hm : lookup_code m h = none) (l : List (B256 × Bytecode)) :
    lookup_code (m ++ l) h = lookup_code l h := by
  induction m with
  | nil => rfl
  | cons p t ih =>
    by_cases hph : p.1 = h
    · simp [lookup_code, hph] at hm
    · simp only [List.cons_append, lookup_code, if_neg hph] at hm ⊢
      exact ih hm

lemma lookup_code_append_of_some {m : List (B256 × Bytecode)} {h : B256}
    {b : Bytecode} (hm : lookup_code m h = some b) (l : List (B256 × Bytecode)) :
    lookup_code (m ++ l) h = some b := by
  induction m with
  | nil => simp [lookup_code] at hm
  | cons p t ih =>
    by_cases hph : p.1 = h
    · simp only [List.cons_append, lookup_code, if_pos hph] at hm ⊢
      exact hm
    · simp only [List.cons_append, lookup_code, if_neg hph] at hm ⊢
      exact ih hm

lemma lookup_code_none_iff {m : List (B256 × Bytecode)} {h : B256} :
    lookup_code m h = none ↔ h ∉ m.map Prod.fst := by
  induction m with
  | nil => simp [lookup_code]
  | cons p t ih =>
    by_cases hph : p.1 = h
    · simp [lookup_code, hph]
    · simp [lookup_code, hph, ih, Ne.symm hph]

lemma countP_key_eq_zero {m : List (B256 × Bytecode)} {h : B256}
    (hm : lookup_code m h = none) :
    m.countP (fun p => p.1 == h) = 0 := by
  rw [List.countP_eq_zero]
  intro p hp
  rw [lookup_code_none_iff] at hm
  simp only [beq_iff_eq]
  intro hph
  exact hm (by rw [List.mem_map]; exact ⟨p, hp, hph⟩)

lemma countP_key_eq_one_of_nodup {m : List (B256 × Bytecode)} {h : B256}
    {b : Bytecode} (hd : (m.map Prod.fst).Nodup)
    (hm : lookup_code m h = some b) :
    m.countP (fun p => p.1 == h) = 1 := by
  induction m with
  | nil => simp [lookup_code] at hm
  | cons p t ih =>
    rw [List.map_cons, List.nodup_cons] at hd
    by_cases hph : p.1 = h
    · have ht : lookup_code t h = none := by
        rw [lookup_code_none_iff]
        exact hph ▸ hd.1
      rw [List.countP_cons]
      simp [hph, countP_key_eq_zero ht]
    · rw [List.countP_cons]
      simp only [beq_iff_eq, hph, if_false]
      simp only [lookup_code, if_neg hph] at hm
      simpa using ih hd.2 hm

lemma get_or_insert_code_of_some {m : List (B256 × Bytecode)} {hash : B256}
    {b : Bytecode} (hm : lookup_code m hash = some b) (bytes : Bytecode) :
    get_or_insert_code m hash bytes = m := by
  unfold get_or_insert_code
  rw [hm]

lemma insert_code_times_of_some {m : List (B256 × Bytecode)} {hash : B256}
    {b : Bytecode} (hm : lookup_code m hash = some b) (n : Nat) (bytes : Bytecode) :
    insert_code_times n m hash bytes = m := by
  induction n with
  | zero => rfl
  | succ k ih =>
    show insert_code_times k (get_or_insert_code m hash bytes) hash bytes = m
    rw [get_or_insert_code_of_some hm]
    exact ih

lemma lookup_get_or_insert {m : List (B256 × Bytecode)} {hash : B256}
    {bytes : Bytecode}
    (hp : lookup_code m hash = none ∨ lookup_code m hash = some bytes) :
    lookup_code (get_or_insert_code m hash bytes) hash = some bytes := by
  rcases hp with hp | hp
  · unfold get_or_insert_code
    rw [hp, lookup_code_append_of_none hp]
    simp [lookup_code]
  · rw [get_or_insert_code_of_some hp]
    exact hp

/-- C6: inserting the same (hash, bytes) pair any number of times leaves
exactly one entry for that hash, mapping to those bytes, and entries already
present are never removed or mutated (the operation is total, so it never
errors). -/
theorem get_or_insert_code_idempotent (m : List (B256 × Bytecode)) (hash : B256)
    (bytes : Bytecode) (n : Nat) (hd : (m.map Prod.fst).Nodup)
    (hp : lookup_code m hash = none ∨ lookup_code m hash = some bytes)
    (hn : 1 ≤ n) :
    lookup_code (insert_code_times n m hash bytes) hash = some bytes ∧
    (insert_code_times n m hash bytes).countP (fun p => p.1 == hash) = 1 ∧
    (∀ h' b', lookup_code m h' = some b' →
      lookup_code (insert_code_times n m hash bytes) h' = some b') := by
  obtain ⟨k, rfl⟩ : ∃ k, n = k + 1 := ⟨n - 1, (Nat.succ_pred_eq_of_pos hn).symm⟩
  have hstep : insert_code_times (k + 1) m hash bytes =
      get_or_insert_code m hash bytes := by
    show insert_code_times k (get_or_insert_code m hash bytes) hash bytes = _
    exact insert_code_times_of_some (lookup_get_or_insert hp) k bytes
  rw [hstep]
  refine ⟨lookup_get_or_insert hp, ?_, ?_⟩
  · rcases hp with hp0 | hp0
    · unfold get_or_insert_code
      rw [hp0, List.countP_append, countP_key_eq_zero hp0]
      simp
    · rw [get_or_insert_code_of_some hp0]
      exact countP_key_eq_one_of_nodup hd hp0
  · intro h' b' hb
    rcases hp with hp0 | hp0
    · unfold get_or_insert_code
      rw [hp0]
      exact lookup_code_append_of_some hb _
    · rw [get_or_insert_code_of_some hp0]
      exact hb

/-- Witness for C6: two inserts of (1, [2, 3]) into a table already holding
(5, [9]): one entry for hash 1, and the entry for hash 5 is untouched. -/
theorem get_or_insert_code_idempotent_witness :
    lookup_code (insert_code_times 2 [(5, [9])] 1 [2, 3]) 1 = some [2, 3] ∧
    (insert_code_times 2 [(5, [9])] 1 [2, 3]).countP (fun p => p.1 == 1) = 1 ∧
    lookup_code (insert_code_times 2 [(5, [9])] 1 [2, 3]) 5 = some [9] :=
  ⟨(get_or_insert_code_idempotent [(5, [9])] 1 [2, 3] 2 (by decide)
      (Or.inl (by decide)) (by decide)).1,
   (get_or_insert_code_idempotent [(5, [9])] 1 [2, 3] 2 (by decide)
      (Or.inl (by decide)) (by decide)).2.1,
   (get_or_insert_code_idempotent [(5, [9])] 1 [2, 3] 2 (by decide)
      (Or.inl (by decide)) (by decide)).2.2 5 [9] (by decide)⟩

/-- C9: a successful `get_single_header` returns a header matching the
request (sealed hash equals the requested hash, or number equals the
requested number), and any response whose length is not one is an error. -/
theorem get_single_header_spec (hashFn : Header → Nat) (id : BlockHashOrNumber)
    (response : List Header) :
    (∀ h, get_single_header hashFn id response = .ok h → matches_id id h = true) ∧
    (response.length ≠ 1 →
      ∃ e, get_single_header hashFn id response = .error e) := by
  constructor
  · intro h hok
    match response with
    | [] => simp [get_single_header] at hok
    | [hdr] =>
      simp only [get_single_header, List.length_singleton, ne_eq,
        not_true_eq_false, if_false] at hok
      by_cases hm : matches_id id (Header.seal_slow hashFn hdr) = true
      · simp only [hm, if_true] at hok
        injection hok with hok2
        rw [← hok2]
        exact hm
      · simp [hm] at hok
    | a :: b :: t => simp [get_single_header] at hok
  · intro hlen
    match response with
    | [] =>
      refine ⟨"Invalid number of headers received. Expected: 1.", ?_⟩
      unfold get_single_header
      rw [if_pos (by decide)]
    | [hdr] => exact absurd rfl hlen
    | a :: b :: t =>
      refine ⟨"Invalid number of headers received. Expected: 1.", ?_⟩
      unfold get_single_header
      rw [if_pos (by simp)]

/-- Witness for C9: a number request answered by a matching single header,
and an empty response rejected. -/
theorem get_single_header_spec_witness :
    matches_id (.number 5) (Header.seal_slow (fun h => h.number + 100) ⟨5, 0⟩) = true ∧
    (get_single_header (fun h => h.number + 100) (.number 5) []).isOk = false := by
  constructor
  · exact (get_single_header_spec (fun h => h.number + 100) (.number 5) [⟨5, 0⟩]).1
      (Header.seal_slow (fun h => h.number + 100) ⟨5, 0⟩) rfl
  · obtain ⟨e, he⟩ :=
      (get_single_header_spec (fun h => h.number + 100) (.number 5) []).2 (by decide)
    rw [he]
    rfl

/-- C10: `has_seek` returns `true` exactly when `seek_key` is `None` — as
written, it reports the absence of the seek key, not its presence. -/
theorem has_seek_eq_true_iff_seek_key_none {K : Type} (f : ListFilter K) :
    f.has_seek = true ↔ f.seek_key = none := by
  unfold ListFilter.has_seek
  cases h : f.seek_key <;> simp [h]

/-- Witness for C10 at a concrete filter with no seek key. -/
theorem has_seek_eq_true_iff_seek_key_none_witness :
    (ListFilter.mk 0 0 none false false (none : Option Nat)).has_seek = true :=
  (has_seek_eq_true_iff_seek_key_none
    (ListFilter.mk 0 0 none false false (none : Option Nat))).mpr rfl
